import Mathlib

/-
  Verification of the waffle BSP graph-processing master (Go sources in
  listener.go and waffle/msg.go) against its natural-language specification.

  The source file concatenates three related documents: an early master
  implementation (referred to below as V1), the current master implementation,
  and the vertex base code.  Each Lean definition is a shallow embedding of the
  corresponding Go function; Go maps are modelled as association lists (their
  key sets are duplicate-free), Go slices by lists together with an explicit
  length where aliasing of the backing array matters, channels by the list of
  values received, and goroutine interleavings by oracle functions supplied as
  parameters.
-/

namespace Waffle

/-! ### Vertex out-edges (VertexBase.removeOutEdge) -/

/-- An out edge of a vertex.  The Go `Edge` is an interface exposing
`Target()`; we model it by its target plus an identifying payload so that
distinct edges with equal targets can be told apart. -/
structure Edge where
  target : String
  payload : Nat
deriving DecidableEq

/-- One pass of the `for i, e := range v.Edges` loop of
`VertexBase.removeOutEdge` (listener.go).  Go evaluates the range operand
once, so the loop visits indices `0 .. N-1` of the ORIGINAL slice header while
reading the shared backing array, which the loop body mutates in place via
`v.Edges = append(v.Edges[:i], v.Edges[i+1:]...)`.  `backing` is the backing
array (its length, the capacity, never changes) and `len` is the current
length of `v.Edges`.  The slice expression `v.Edges[i+1:]` defaults its upper
bound to `len`, so it panics at run time when `i + 1 > len`; the in-place
append shifts `backing[i+1 .. len-1]` down one slot and leaves
`backing[len-1]` as a stale duplicate. -/
def removeOutEdgeLoop (target : String) : List Nat → List Edge → Nat →
    Except String (List Edge × Nat)
  | [], backing, len => Except.ok (backing, len)
  | i :: rest, backing, len =>
    if (backing.getD i ⟨"", 0⟩).target = target then
      if i + 1 ≤ len then
        removeOutEdgeLoop target rest
          (backing.take i ++ (backing.drop (i + 1)).take (len - (i + 1))
            ++ backing.drop (len - 1))
          (len - 1)
      else Except.error "slice bounds out of range"
    else removeOutEdgeLoop target rest backing len

/-- VertexBase.removeOutEdge (listener.go): removes out edges whose target
equals `target` by appending around each match while ranging over the slice
being mutated.  A `nil` edge slice is the empty list.  The result is the
final `v.Edges` view of the backing array, or the run-time panic message. -/
def removeOutEdge (edges : List Edge) (target : String) :
    Except String (List Edge) :=
  match removeOutEdgeLoop target (List.range edges.length) edges edges.length with
  | Except.ok (backing, len) => Except.ok (backing.take len)
  | Except.error e => Except.error e

/-! ### Registration (Master.RegisterWorker, Master.registerWorkers) -/

/-- Worker record kept by the current master (`workerInfo` in listener.go);
the heartbeat channel is omitted (it carries no data). -/
structure WorkerInfo where
  host : String
  port : String
  failed : Bool
  errorMsg : String
  lastHeartbeat : Int
deriving DecidableEq

/-- net.JoinHostPort for the host/port strings used here (the bracketing of
IPv6 literals is immaterial to the claims). -/
def joinHostPort (host port : String) : String := host ++ ":" ++ port

/-- A fresh worker record as built by Master.RegisterWorker. -/
def newWorkerInfo (host port : String) : WorkerInfo :=
  { host := host, port := port, failed := false, errorMsg := "",
    lastHeartbeat := 0 }

/-- The master's worker pool: a Go map keyed by hostPort, modelled as an
association list with duplicate-free keys. -/
def WorkerPool := List (String × WorkerInfo)

instance : DecidableEq WorkerPool := by
  unfold WorkerPool
  infer_instance

/-- Master.RegisterWorker (listener.go, current master): rejects when
registration is closed; replies with the configured job id, adding a record
only when the hostPort is not yet in the pool.  Returns the reply and the
updated pool. -/
def RegisterWorker (canRegister : Bool) (jobId : String)
    (pool : List (String × WorkerInfo)) (host port : String) :
    Except String String × List (String × WorkerInfo) :=
  if !canRegister then (Except.error "Registration is not open", pool)
  else
    let hostPort := joinHostPort host port
    match pool.find? (fun e => e.1 == hostPort) with
    | some _ => (Except.ok jobId, pool)
    | none => (Except.ok jobId, pool ++ [(hostPort, newWorkerInfo host port)])

/-- The registration wait loop of Master.registerWorkers: the k-th check sees
the pool size `poolAt k` at elapsed time `k` seconds (the Go loop sleeps one
second per iteration, `timer` being the elapsed nanoseconds).  Returns the
check index at which the loop exits, or none if the fuel runs out before the
window closes. -/
def regLoop (poolAt : Nat → Nat) (minWorkers : Nat) (registerWait : Int) :
    Nat → Nat → Option Nat
  | 0, _ => none
  | fuel + 1, k =>
    if (0 < minWorkers ∧ poolAt k < minWorkers) ∨
        (0 < registerWait ∧ (k : Int) * 1000000000 < registerWait) then
      regLoop poolAt minWorkers registerWait fuel (k + 1)
    else some k

/-- Master.registerWorkers (listener.go, current master): opens registration,
waits until the pool reaches MinWorkers and RegisterWait has elapsed, then
fails when the pool is empty or below MinWorkers after a positive wait
(Go parses the check as `len == 0 || (len < MinWorkers && RegisterWait > 0)`).
The pool size examined by the final check is the size at the closing check. -/
def registerWorkers (poolAt : Nat → Nat) (minWorkers : Nat)
    (registerWait : Int) (fuel : Nat) : Option (Except String Unit) :=
  match regLoop poolAt minWorkers registerWait fuel 0 with
  | none => none
  | some k =>
    if poolAt k = 0 ∨ (poolAt k < minWorkers ∧ 0 < registerWait) then
      some (Except.error "Not enough workers registered")
    else some (Except.ok ())

/-! ### Helper lemmas on association lists -/

theorem find?_append_of_none {α : Type} (p : α → Bool) {l₁ : List α}
    (h : l₁.find? p = none) (l₂ : List α) :
    (l₁ ++ l₂).find? p = l₂.find? p := by
  induction l₁ with
  | nil => simp
  | cons a l ih =>
    cases hp : p a with
    | true => simp [List.find?, hp] at h
    | false =>
      simp only [List.cons_append, List.find?, hp] at h ⊢
      exact ih h

/-- C10.  The claim is wrong about the code and the code is wrong: the range
loop of removeOutEdge iterates the very slice it shrinks, so after removing
the edge at index 0 the element originally at index 1 is skipped.  On the
edge list with targets t, t, x, removing t leaves an edge whose target is
still t (the Go run also panics outright on the list t, t, because
the slice expression edges[2:] is out of range once the length dropped to 1).
-/
theorem removeOutEdge_skips_adjacent_duplicate :
    removeOutEdge [⟨"t", 0⟩, ⟨"t", 1⟩, ⟨"x", 2⟩] "t"
      = Except.ok [⟨"t", 1⟩, ⟨"x", 2⟩]
  ∧ removeOutEdge [⟨"t", 0⟩, ⟨"t", 1⟩] "t"
      = Except.error "slice bounds out of range" := by
  constructor <;> rfl

/-- C4.  Registering the same host and port twice while registration is open:
both calls return the configured job id, the pool after the first call
already has exactly one record keyed by that hostPort, and the second call
leaves the pool exactly as the first call left it. -/
theorem RegisterWorker_idempotent (jobId host port : String)
    (pool : List (String × WorkerInfo))
    (hnd : (pool.map Prod.fst).Nodup) :
    (RegisterWorker true jobId pool host port).1 = Except.ok jobId
  ∧ (RegisterWorker true jobId
        (RegisterWorker true jobId pool host port).2 host port).1
      = Except.ok jobId
  ∧ (RegisterWorker true jobId
        (RegisterWorker true jobId pool host port).2 host port).2
      = (RegisterWorker true jobId pool host port).2
  ∧ ((RegisterWorker true jobId pool host port).2.map Prod.fst).count
        (joinHostPort host port) = 1 := by
  unfold RegisterWorker
  cases h : pool.find? (fun e => e.1 == joinHostPort host port) with
  | some e =>
    have he := List.find?_some h
    have hmem := List.mem_of_find?_eq_some h
    have hkey : e.1 = joinHostPort host port := by
      simpa using he
    simp only [Bool.not_true, Bool.false_eq_true, if_false, h]
    refine ⟨trivial, trivial, trivial, ?_⟩
    have hmemkey : joinHostPort host port ∈ pool.map Prod.fst := by
      exact hkey ▸ List.mem_map_of_mem Prod.fst hmem
    exact List.count_eq_one_of_mem hnd hmemkey
  | none =>
    have hnot : ∀ e ∈ pool, ¬(e.1 == joinHostPort host port) = true := by
      simpa using List.find?_eq_none.mp h
    have hfind2 : ((pool ++ [(joinHostPort host port,
        newWorkerInfo host port)]).find?
          (fun e => e.1 == joinHostPort host port))
        = some (joinHostPort host port, newWorkerInfo host port) := by
      rw [find?_append_of_none _ h]
      simp [List.find?_cons]
    simp only [Bool.not_true, Bool.false_eq_true, if_false, h, hfind2]
    refine ⟨trivial, trivial, trivial, ?_⟩
    have hnotmem : joinHostPort host port ∉ pool.map Prod.fst := by
      intro hmem
      rcases List.mem_map.mp hmem with ⟨e, he, hkey⟩
      exact hnot e he (by simpa using hkey)
    rw [List.map_append]
    rw [List.count_append]
    rw [List.count_eq_zero.mpr hnotmem]
    simp

/-- C4 witness: a concrete double registration on the empty pool. -/
theorem RegisterWorker_idempotent_witness :
    ((RegisterWorker true "job-0" [] "10.0.0.1" "7777").2.map
        Prod.fst).count (joinHostPort "10.0.0.1" "7777") = 1 :=
  (RegisterWorker_idempotent "job-0" "10.0.0.1" "7777" [] (by decide)).2.2.2

/-- C6.  When the registration window closes at the k-th check,
registerWorkers returns an error exactly when the pool is empty or is below
MinWorkers with a positive RegisterWait, and returns success otherwise. -/
theorem registerWorkers_error_iff (poolAt : Nat → Nat) (minWorkers : Nat)
    (registerWait : Int) (fuel k : Nat)
    (hexit : regLoop poolAt minWorkers registerWait fuel 0 = some k) :
    (registerWorkers poolAt minWorkers registerWait fuel
        = some (Except.error "Not enough workers registered")
      ↔ (poolAt k = 0 ∨ (poolAt k < minWorkers ∧ 0 < registerWait)))
  ∧ (registerWorkers poolAt minWorkers registerWait fuel
        = some (Except.ok ())
      ↔ ¬(poolAt k = 0 ∨ (poolAt k < minWorkers ∧ 0 < registerWait))) := by
  unfold registerWorkers
  rw [hexit]
  by_cases hc : poolAt k = 0 ∨ (poolAt k < minWorkers ∧ 0 < registerWait) <;>
    simp [hc]

/-- C6 witness: with no workers ever registering, a zero MinWorkers and a
zero RegisterWait, the window closes at the first check and registration
fails because the pool is empty. -/
theorem registerWorkers_error_iff_witness :
    registerWorkers (fun _ => 0) 0 0 1
      = some (Except.error "Not enough workers registered") :=
  (registerWorkers_error_iff (fun _ => 0) 0 0 1 0 (by decide)).1.mpr
    (Or.inl rfl)

/-! ### The barrier of the current master (Master.barrier, listener.go) -/

/-- PhaseSummary as sent by a worker entering the barrier (waffle wire
struct; errors are modelled by their messages). -/
structure PhaseSummary where
  WorkerId : String
  JobId : String
  PhaseId : Int
  ActiveVerts : Nat
  NumVerts : Nat
  SentMsgs : Nat
  Errors : List String
deriving DecidableEq

/-- An entry on the barrier channel: either a PhaseSummary from a worker or a
barrierRemove pushed by markWorkerFailed. -/
inductive BarrierEntry where
  | summary (ps : PhaseSummary)
  | remove (hostPort : String) (errMsg : Option String)
deriving DecidableEq

/-- The worker() accessor of a barrierEntry.  For barrierRemove it is the
hostPort field (listener.go); the PhaseSummary implementation is not among
the given sources.  Modelled from the spec: barrier entries are keyed by the
reporting worker's id, and the barrier code deletes a summary's key as
`entry.WorkerId`. -/
def BarrierEntry.worker : BarrierEntry → String
  | BarrierEntry.summary ps => ps.WorkerId
  | BarrierEntry.remove hp _ => hp

/-- Per-phase accumulator (`phaseInfo` in listener.go). -/
structure PhaseInfo where
  activeVerts : Nat
  numVerts : Nat
  sentMsgs : Nat
  lostWorkers : List String
  errors : List String
deriving DecidableEq

/-- newPhaseInfo (listener.go). -/
def newPhaseInfo : PhaseInfo :=
  { activeVerts := 0, numVerts := 0, sentMsgs := 0, lostWorkers := [],
    errors := [] }

/-- collectSummaryInfo (listener.go, current master): adds a summary's
counters and errors into the phase accumulator. -/
def collectSummaryInfo (info : PhaseInfo) (ps : PhaseSummary) : PhaseInfo :=
  { info with
      activeVerts := info.activeVerts + ps.ActiveVerts,
      numVerts := info.numVerts + ps.NumVerts,
      sentMsgs := info.sentMsgs + ps.SentMsgs,
      errors := info.errors ++ ps.Errors }

/-- Outcome of Master.barrier: `closed` when every snapshot worker is
accounted for (the function returns), `blocked` when the channel yields no
further entries while workers are still outstanding (the Go loop then waits
forever). -/
inductive BarrierResult where
  | closed (info : PhaseInfo)
  | blocked (info : PhaseInfo) (outstanding : List String)
deriving DecidableEq

/-- The receive loop of Master.barrier (listener.go, current master):
entries whose worker is not in the outstanding snapshot are discarded; a
summary is accumulated and its worker removed; a barrierRemove removes its
worker and records it in lostWorkers; the loop returns once the outstanding
set is empty.  Note that the current barrier performs no JobId or PhaseId
check on summaries. -/
def barrierLoop : List String → List BarrierEntry → PhaseInfo → BarrierResult
  | outstanding, [], info => BarrierResult.blocked info outstanding
  | outstanding, e :: rest, info =>
    if e.worker ∈ outstanding then
      match e with
      | BarrierEntry.summary ps =>
        let info2 := collectSummaryInfo info ps
        let out2 := outstanding.erase ps.WorkerId
        if out2 = [] then BarrierResult.closed info2
        else barrierLoop out2 rest info2
      | BarrierEntry.remove hp _ =>
        let out2 := outstanding.erase hp
        let info2 := { info with lostWorkers := info.lostWorkers ++ [hp] }
        if out2 = [] then BarrierResult.closed info2
        else barrierLoop out2 rest info2
    else barrierLoop outstanding rest info

/-- Master.barrier (listener.go, current master): snapshots the worker pool
keys, returns at once on an empty snapshot, and otherwise runs the receive
loop.  `pool` is the key snapshot, `entries` the sequence of values received
on the barrier channel. -/
def barrier (pool : List String) (entries : List BarrierEntry)
    (info : PhaseInfo) : BarrierResult :=
  if pool = [] then BarrierResult.closed info
  else barrierLoop pool entries info

/-- True when the barrier call returned. -/
def BarrierResult.isClosed : BarrierResult → Bool
  | BarrierResult.closed _ => true
  | BarrierResult.blocked _ _ => false

/-- The accumulator update performed by the barrier loop for one accepted
entry (the bodies of the two switch cases of Master.barrier). -/
def barrierStepInfo (e : BarrierEntry) (info : PhaseInfo) : PhaseInfo :=
  match e with
  | BarrierEntry.summary ps => collectSummaryInfo info ps
  | BarrierEntry.remove hp _ =>
    { info with lostWorkers := info.lostWorkers ++ [hp] }

theorem barrierLoop_cons_mem (e : BarrierEntry) (rest : List BarrierEntry)
    (info : PhaseInfo) (out : List String) (hw : e.worker ∈ out) :
    barrierLoop out (e :: rest) info =
      if out.erase e.worker = [] then
        BarrierResult.closed (barrierStepInfo e info)
      else barrierLoop (out.erase e.worker) rest (barrierStepInfo e info) := by
  cases e with
  | summary ps =>
    have hw2 : ps.WorkerId ∈ out := hw
    simp [barrierLoop, barrierStepInfo, BarrierEntry.worker, hw2]
  | remove hp msg =>
    have hw2 : hp ∈ out := hw
    simp [barrierLoop, barrierStepInfo, BarrierEntry.worker, hw2]

theorem barrierLoop_cons_notmem (e : BarrierEntry) (rest : List BarrierEntry)
    (info : PhaseInfo) (out : List String) (hw : e.worker ∉ out) :
    barrierLoop out (e :: rest) info = barrierLoop out rest info := by
  cases e with
  | summary ps =>
    have hw2 : ps.WorkerId ∉ out := hw
    simp [barrierLoop, BarrierEntry.worker, hw2]
  | remove hp msg =>
    have hw2 : hp ∉ out := hw
    simp [barrierLoop, BarrierEntry.worker, hw2]

theorem barrierLoop_closed_iff (entries : List BarrierEntry) :
    ∀ (out : List String) (info : PhaseInfo), out ≠ [] → out.Nodup →
      ((barrierLoop out entries info).isClosed = true ↔
        ∀ w ∈ out, ∃ en ∈ entries, BarrierEntry.worker en = w) := by
  induction entries with
  | nil =>
    intro out info hne _hnd
    simp only [barrierLoop, BarrierResult.isClosed]
    constructor
    · intro h
      exact absurd h (by simp)
    · intro h
      rcases List.exists_mem_of_ne_nil out hne with ⟨w, hw⟩
      rcases h w hw with ⟨en, hen, _⟩
      exact absurd hen (List.not_mem_nil en)
  | cons e rest ih =>
    intro out info hne hnd
    by_cases hw : e.worker ∈ out
    · rw [barrierLoop_cons_mem e rest info out hw]
      have herase : ∀ w, w ∈ out.erase e.worker ↔ w ≠ e.worker ∧ w ∈ out :=
        fun _ => hnd.mem_erase_iff
      have hnd2 : (out.erase e.worker).Nodup := hnd.erase e.worker
      by_cases hempty : out.erase e.worker = []
      · rw [if_pos hempty]
        constructor
        · intro _ w hwout
          refine ⟨e, List.mem_cons_self e rest, ?_⟩
          by_contra hne2
          have hmem : w ∈ out.erase e.worker :=
            (herase w).mpr ⟨fun hh => hne2 hh.symm, hwout⟩
          rw [hempty] at hmem
          simp at hmem
        · intro _
          rfl
      · rw [if_neg hempty]
        rw [ih (out.erase e.worker) _ hempty hnd2]
        constructor
        · intro h w hwout
          by_cases hwe : w = e.worker
          · exact ⟨e, List.mem_cons_self e rest, hwe.symm⟩
          · rcases h w ((herase w).mpr ⟨hwe, hwout⟩) with ⟨en, hen, henw⟩
            exact ⟨en, List.mem_cons_of_mem e hen, henw⟩
        · intro h w hwout
          rcases (herase w).mp hwout with ⟨hwne, hwout2⟩
          rcases h w hwout2 with ⟨en, hen, henw⟩
          rcases List.mem_cons.mp hen with heq | hrest2
          · exact absurd (heq ▸ henw).symm hwne
          · exact ⟨en, hrest2, henw⟩
    · rw [barrierLoop_cons_notmem e rest info out hw]
      rw [ih out info hne hnd]
      constructor
      · intro h w hwout
        rcases h w hwout with ⟨en, hen, henw⟩
        exact ⟨en, List.mem_cons_of_mem e hen, henw⟩
      · intro h w hwout
        rcases h w hwout with ⟨en, hen, henw⟩
        rcases List.mem_cons.mp hen with heq | hrest2
        · refine absurd ?_ hw
          have hew : e.worker = w := heq ▸ henw
          rw [hew]
          exact hwout
        · exact ⟨en, hrest2, henw⟩

/-- C2.  With the snapshot taken at barrier start (a Go map key set, hence
duplicate-free), the barrier returns exactly when every snapshot worker has
delivered a PhaseSummary or been removed by a barrierRemove entry, and an
entry whose worker is outside the outstanding set is discarded: it changes
neither the outstanding set nor the phase accumulator. -/
theorem barrier_closes_iff (pool : List String) (entries : List BarrierEntry)
    (info : PhaseInfo) (hnd : pool.Nodup) :
    ((barrier pool entries info).isClosed = true ↔
      ∀ w ∈ pool, ∃ en ∈ entries, BarrierEntry.worker en = w)
  ∧ (∀ (out : List String) (e : BarrierEntry) (rest : List BarrierEntry)
        (info0 : PhaseInfo), BarrierEntry.worker e ∉ out →
        barrierLoop out (e :: rest) info0 = barrierLoop out rest info0) := by
  constructor
  · by_cases hpool : pool = []
    · subst hpool
      simp [barrier, BarrierResult.isClosed]
    · unfold barrier
      rw [if_neg hpool]
      exact barrierLoop_closed_iff entries pool info hpool hnd
  · intro out e rest info0 hnotin
    exact barrierLoop_cons_notmem e rest info0 out hnotin

/-- C2 witness: a two-worker snapshot where one worker reports a summary and
the other is removed after failing; the barrier closes. -/
theorem barrier_closes_iff_witness :
    (barrier ["w1:1", "w2:2"]
        [BarrierEntry.summary
          { WorkerId := "w1:1", JobId := "j", PhaseId := 6, ActiveVerts := 3,
            NumVerts := 5, SentMsgs := 2, Errors := [] },
         BarrierEntry.remove "w2:2" none]
        newPhaseInfo).isClosed = true :=
  (barrier_closes_iff ["w1:1", "w2:2"]
      [BarrierEntry.summary
        { WorkerId := "w1:1", JobId := "j", PhaseId := 6, ActiveVerts := 3,
          NumVerts := 5, SentMsgs := 2, Errors := [] },
       BarrierEntry.remove "w2:2" none]
      newPhaseInfo (by decide)).1.mpr (by decide)

/-! ### The barrier of the first master variant (V1), which checks JobId and
PhaseId of every summary against the configuration and fatals on mismatch -/

namespace V1

/-- A worker error carried in a V1 PhaseSummary: either a RecoverableError
or any other error. -/
inductive WErr where
  | recoverable (msg : String)
  | unrecoverable (msg : String)
deriving DecidableEq

/-- PhaseSummary of the first master variant. -/
structure PhaseSummary where
  WorkerId : String
  JobId : String
  PhaseId : Int
  ActiveVerts : Nat
  NumVerts : Nat
  SentMsgs : Nat
  Error : Option WErr
deriving DecidableEq

/-- jobInfo counters of the first master variant. -/
structure JobInfo where
  activeVerts : Nat
  numVerts : Nat
  sentMsgs : Nat
  totalSentMsgs : Nat
deriving DecidableEq

/-- collectSummaryInfo of the first master variant: note that
totalSentMsgs accumulates the already-updated running sentMsgs. -/
def collectSummaryInfo (job : JobInfo) (ps : PhaseSummary) : JobInfo :=
  let sent := job.sentMsgs + ps.SentMsgs
  { activeVerts := job.activeVerts + ps.ActiveVerts,
    numVerts := job.numVerts + ps.NumVerts,
    sentMsgs := sent,
    totalSentMsgs := job.totalSentMsgs + sent }

/-- State threaded through the V1 barrier loop: the job counters, the
recoverable errors collected by handlePhaseError, and the set of worker ids
that have entered (the Go map bmap, keyed by WorkerId). -/
structure BarrierState where
  job : JobInfo
  recoveryErrors : List String
  bmap : List String
deriving DecidableEq

/-- Outcome of one run of the V1 barrier. -/
inductive BarrierOutcome where
  | fatalJobId
  | fatalPhase (workerId : String)
  | panicked (st : BarrierState)
  | done (st : BarrierState)
  | starved (st : BarrierState)
deriving DecidableEq

/-- bmap insertion: a Go map write, idempotent on the key set. -/
def insertWorker (l : List String) (x : String) : List String :=
  if x ∈ l then l else l ++ [x]

/-- Master.barrier of the first variant (listener.go lines 135-155): each
summary is first checked against the configured JobId and the current phase,
with log.Fatalf terminating the job on a mismatch; a recoverable error is
recorded, an unrecoverable one panics; otherwise the counters are collected.
The worker is then marked in bmap, and the barrier returns once bmap has as
many distinct workers as the worker map. -/
def barrier (cfgJobId : String) (currPhase : Int) (workerMapSize : Nat) :
    List PhaseSummary → BarrierState → BarrierOutcome
  | [], st => BarrierOutcome.starved st
  | ps :: rest, st =>
    if ps.JobId ≠ cfgJobId then BarrierOutcome.fatalJobId
    else if ps.PhaseId ≠ currPhase then BarrierOutcome.fatalPhase ps.WorkerId
    else
      match ps.Error with
      | some (WErr.unrecoverable _) => BarrierOutcome.panicked st
      | some (WErr.recoverable msg) =>
        let st2 := { st with
          recoveryErrors := st.recoveryErrors ++ [msg],
          bmap := insertWorker st.bmap ps.WorkerId }
        if st2.bmap.length = workerMapSize then BarrierOutcome.done st2
        else barrier cfgJobId currPhase workerMapSize rest st2
      | none =>
        let st2 := { st with
          job := collectSummaryInfo st.job ps,
          bmap := insertWorker st.bmap ps.WorkerId }
        if st2.bmap.length = workerMapSize then BarrierOutcome.done st2
        else barrier cfgJobId currPhase workerMapSize rest st2

end V1

/-- C5 counterexample.  In the current master the barrier performs no JobId
or PhaseId validation at all: a summary whose JobId and PhaseId cannot match
any configuration (the master never runs phase -1) is accepted from a
snapshot worker, its counters are accumulated, and the barrier closes
normally instead of treating it as a fatal protocol violation. -/
theorem barrier_accepts_mismatched_summary :
    barrier ["w1:1"]
        [BarrierEntry.summary
          { WorkerId := "w1:1", JobId := "some-other-job", PhaseId := -1,
            ActiveVerts := 7, NumVerts := 7, SentMsgs := 7, Errors := [] }]
        newPhaseInfo
      = BarrierResult.closed
          { activeVerts := 7, numVerts := 7, sentMsgs := 7,
            lostWorkers := [], errors := [] } := by
  rfl

/-- C5 amended.  Only the first master variant rejects a mismatched summary:
its barrier fatals on a JobId mismatch, and on a PhaseId mismatch for a
matching JobId, before the summary contributes anything to the barrier
accounting. -/
theorem V1.barrier_rejects_mismatch (cfgJobId : String) (currPhase : Int)
    (workerMapSize : Nat) (ps : V1.PhaseSummary)
    (rest : List V1.PhaseSummary) (st : V1.BarrierState) :
    (ps.JobId ≠ cfgJobId →
      V1.barrier cfgJobId currPhase workerMapSize (ps :: rest) st
        = V1.BarrierOutcome.fatalJobId)
  ∧ (ps.JobId = cfgJobId → ps.PhaseId ≠ currPhase →
      V1.barrier cfgJobId currPhase workerMapSize (ps :: rest) st
        = V1.BarrierOutcome.fatalPhase ps.WorkerId) := by
  constructor
  · intro hjob
    simp [V1.barrier, hjob]
  · intro hjob hphase
    simp [V1.barrier, hjob, hphase]

/-- C5 amended claim witness: a concrete summary with a stale job id is
rejected as fatal by the V1 barrier. -/
theorem V1.barrier_rejects_mismatch_witness :
    V1.barrier "job-1" 3 2
        [{ WorkerId := "w1:1", JobId := "job-0", PhaseId := 3,
           ActiveVerts := 0, NumVerts := 0, SentMsgs := 0, Error := none }]
        { job := { activeVerts := 0, numVerts := 0, sentMsgs := 0,
                   totalSentMsgs := 0 },
          recoveryErrors := [], bmap := [] }
      = V1.BarrierOutcome.fatalJobId :=
  (V1.barrier_rejects_mismatch "job-1" 3 2
      { WorkerId := "w1:1", JobId := "job-0", PhaseId := 3,
        ActiveVerts := 0, NumVerts := 0, SentMsgs := 0, Error := none }
      []
      { job := { activeVerts := 0, numVerts := 0, sentMsgs := 0,
                 totalSentMsgs := 0 },
        recoveryErrors := [], bmap := [] }).1 (by decide)

/-! ### Partition assignment (Master.determinePartitions) -/

/-- The inner loop of Master.determinePartitions: one range over the worker
pool, assigning the next partition ids in sequence.  `p` is the running
partition counter. -/
def assignPass (p : Nat) : List String → List (Nat × String)
  | [] => []
  | w :: ws => (p, w) :: assignPass (p + 1) ws

/-- The outer loop of Master.determinePartitions: `rem` remaining passes,
`i` the current pass index, `p` the running partition counter.  Go map
iteration order is arbitrary and may differ between passes, so pass `i`
enumerates the pool keys in the order `orders i`. -/
def determinePartitionsPasses (orders : Nat → List String) :
    Nat → Nat → Nat → List (Nat × String)
  | 0, _, _ => []
  | rem + 1, i, p =>
    assignPass p (orders i)
      ++ determinePartitionsPasses orders rem (i + 1) (p + (orders i).length)

/-- Master.determinePartitions (listener.go, current master): builds the
partition map by `MinPartitionsPerWorker` passes over the worker pool,
numbering partitions from 0. -/
def determinePartitions (orders : Nat → List String)
    (minPartitionsPerWorker : Nat) : List (Nat × String) :=
  determinePartitionsPasses orders minPartitionsPerWorker 0 0

theorem range'_append_add (m : Nat) :
    ∀ s n : Nat, List.range' s m ++ List.range' (s + m) n
      = List.range' s (m + n) := by
  induction m with
  | zero => intro s n; simp
  | succ m ih =>
    intro s n
    have h1 : m + 1 + n = (m + n) + 1 := by omega
    rw [h1, List.range'_succ, List.range'_succ, List.cons_append]
    have hs : s + (m + 1) = s + 1 + m := by omega
    rw [hs, ih (s + 1) n]

theorem assignPass_map_fst (ws : List String) :
    ∀ p : Nat, (assignPass p ws).map Prod.fst = List.range' p ws.length := by
  induction ws with
  | nil => intro p; simp [assignPass]
  | cons w ws ih =>
    intro p
    rw [List.length_cons, List.range'_succ]
    simp only [assignPass, List.map_cons]
    rw [ih (p + 1)]

theorem assignPass_countP (w : String) (ws : List String) :
    ∀ p : Nat, (assignPass p ws).countP (fun e => e.2 == w) = ws.count w := by
  induction ws with
  | nil => intro p; simp [assignPass]
  | cons v ws ih =>
    intro p
    simp only [assignPass, List.countP_cons, List.count_cons, ih (p + 1)]

theorem assignPass_owners (ws : List String) :
    ∀ (p : Nat) (pr : Nat × String), pr ∈ assignPass p ws → pr.2 ∈ ws := by
  induction ws with
  | nil => intro p pr h; simp [assignPass] at h
  | cons v ws ih =>
    intro p pr h
    rcases List.mem_cons.mp h with heq | hrest
    · rw [heq]
      exact List.mem_cons_self v ws
    · exact List.mem_cons_of_mem v (ih (p + 1) pr hrest)

theorem passes_map_fst (orders : Nat → List String) (W : Nat) :
    ∀ (rem i p : Nat), (∀ j, i ≤ j → j < i + rem → (orders j).length = W) →
      (determinePartitionsPasses orders rem i p).map Prod.fst
        = List.range' p (rem * W) := by
  intro rem
  induction rem with
  | zero =>
    intro i p _
    simp [determinePartitionsPasses]
  | succ rem ih =>
    intro i p hlen
    have hi : (orders i).length = W := hlen i (le_refl i) (by omega)
    simp only [determinePartitionsPasses, List.map_append]
    rw [assignPass_map_fst (orders i) p, hi]
    rw [ih (i + 1) (p + W)
      (fun j h1 h2 => hlen j (by omega) (by omega))]
    rw [range'_append_add W p (rem * W)]
    congr 1
    ring

theorem passes_countP (orders : Nat → List String) (w : String) :
    ∀ (rem i p : Nat), (∀ j, i ≤ j → j < i + rem → (orders j).count w = 1) →
      (determinePartitionsPasses orders rem i p).countP (fun e => e.2 == w)
        = rem := by
  intro rem
  induction rem with
  | zero =>
    intro i p _
    simp [determinePartitionsPasses]
  | succ rem ih =>
    intro i p hcount
    simp only [determinePartitionsPasses, List.countP_append]
    rw [assignPass_countP w (orders i) p,
      hcount i (le_refl i) (by omega),
      ih (i + 1) (p + (orders i).length)
        (fun j h1 h2 => hcount j (by omega) (by omega))]
    omega

theorem passes_owners (orders : Nat → List String) :
    ∀ (rem i p : Nat) (pr : Nat × String),
      pr ∈ determinePartitionsPasses orders rem i p →
      ∃ j, i ≤ j ∧ j < i + rem ∧ pr.2 ∈ orders j := by
  intro rem
  induction rem with
  | zero =>
    intro i p pr h
    simp [determinePartitionsPasses] at h
  | succ rem ih =>
    intro i p pr h
    rcases List.mem_append.mp h with hpass | hrest
    · exact ⟨i, le_refl i, by omega, assignPass_owners (orders i) p pr hpass⟩
    · rcases ih (i + 1) (p + (orders i).length) pr hrest with ⟨j, h1, h2, h3⟩
      exact ⟨j, by omega, by omega, h3⟩

/-- C9.  With a duplicate-free worker pool of size W enumerated fully (in
arbitrary per-pass order, as Go map iteration is) on each of the k passes,
determinePartitions numbers the partitions exactly 0 .. k*W - 1 in order,
gives every pool worker exactly k partitions, and assigns no partition to
anyone outside the pool. -/
theorem determinePartitions_round_robin (orders : Nat → List String)
    (k : Nat) (pool : List String) (hnd : pool.Nodup)
    (hperm : ∀ i, i < k → (orders i).Perm pool) :
    ((determinePartitions orders k).map Prod.fst
        = List.range (k * pool.length))
  ∧ (∀ w ∈ pool,
      (determinePartitions orders k).countP (fun e => e.2 == w) = k)
  ∧ (∀ pr ∈ determinePartitions orders k, pr.2 ∈ pool) := by
  refine ⟨?_, ?_, ?_⟩
  · rw [List.range_eq_range']
    exact passes_map_fst orders pool.length k 0 0
      (fun j _ hj => ((hperm j (by omega)).length_eq))
  · intro w hw
    exact passes_countP orders w k 0 0
      (fun j _ hj => by
        rw [(hperm j (by omega)).count_eq]
        exact List.count_eq_one_of_mem hnd hw)
  · intro pr hpr
    rcases passes_owners orders k 0 0 pr hpr with ⟨j, _, hj, hmem⟩
    exact (hperm j (by omega)).mem_iff.mp hmem

/-- C9 witness: two passes over the pool of workers a and b, enumerated in a
different order on each pass, yield partitions 0,1,2,3 with two partitions
per worker. -/
theorem determinePartitions_round_robin_witness :
    (determinePartitions
        (fun i => if i = 0 then ["a", "b"] else ["b", "a"]) 2).map Prod.fst
      = List.range (2 * 2) :=
  (determinePartitions_round_robin
      (fun i => if i = 0 then ["a", "b"] else ["b", "a"]) 2 ["a", "b"]
      (by decide)
      (by
        intro i hi
        interval_cases i <;> decide)).1

/-! ### Failure purge and partition reassignment
(Master.purgeFailedWorkers, Master.movePartitions) -/

/-- The newOwner scan of Master.movePartitions: the first worker reached on
pool iteration whose key differs from moveId; the Go string zero value if
there is none. -/
def firstOtherWorker (pool : List (String × WorkerInfo))
    (moveId : String) : String :=
  match pool.find? (fun e => e.1 != moveId) with
  | some e => e.1
  | none => ""

/-- Master.movePartitions (listener.go, current master): every partition
owned by moveId is reassigned to the first other worker found in the pool;
all other assignments are untouched. -/
def movePartitions (pool : List (String × WorkerInfo)) (moveId : String)
    (pmap : List (Nat × String)) : List (Nat × String) :=
  pmap.map (fun pr =>
    if pr.2 = moveId then (pr.1, firstOtherWorker pool moveId) else pr)

/-- Master.purgeFailedWorkers (listener.go, current master): deletes every
worker marked failed from the pool; fails with "no workers left" when that
empties the pool, leaving the partition map untouched; otherwise moves each
purged worker's partitions (keyed by the hostPort rebuilt from its record)
to surviving workers. -/
def purgeFailedWorkers (pool : List (String × WorkerInfo))
    (pmap : List (Nat × String)) :
    Except String (List (String × WorkerInfo)) × List (Nat × String) :=
  let failedWorkers := pool.filter (fun e => e.2.failed)
  let pool2 := pool.filter (fun e => !e.2.failed)
  if pool2 = [] then (Except.error "no workers left", pmap)
  else
    (Except.ok pool2,
     failedWorkers.foldl
       (fun pm f => movePartitions pool2 (joinHostPort f.2.host f.2.port) pm)
       pmap)

theorem movePartitions_map_fst (pool : List (String × WorkerInfo))
    (moveId : String) (pmap : List (Nat × String)) :
    (movePartitions pool moveId pmap).map Prod.fst = pmap.map Prod.fst := by
  induction pmap with
  | nil => rfl
  | cons pr rest ih =>
    simp only [movePartitions, List.map_cons] at ih ⊢
    by_cases h : pr.2 = moveId <;> simp [h, ih]

theorem movePartitions_keeps (pool : List (String × WorkerInfo))
    (moveId : String) (pmap : List (Nat × String)) (pr : Nat × String)
    (h : pr ∈ pmap) (hne : pr.2 ≠ moveId) :
    pr ∈ movePartitions pool moveId pmap := by
  refine List.mem_map.mpr ⟨pr, h, ?_⟩
  simp [hne]

theorem movePartitions_owners (pool : List (String × WorkerInfo))
    (moveId : String) (pmap : List (Nat × String)) (pr2 : Nat × String)
    (h : pr2 ∈ movePartitions pool moveId pmap) :
    (∃ pr ∈ pmap, pr2 = pr ∧ pr.2 ≠ moveId)
      ∨ pr2.2 = firstOtherWorker pool moveId := by
  rcases List.mem_map.mp h with ⟨pr, hpr, heq⟩
  by_cases hcase : pr.2 = moveId
  · right
    rw [← heq]
    simp [hcase]
  · left
    rw [if_neg hcase] at heq
    exact ⟨pr, hpr, heq.symm, hcase⟩

theorem firstOtherWorker_mem (pool : List (String × WorkerInfo))
    (moveId : String) (hne : pool ≠ [])
    (hnotin : ∀ e ∈ pool, e.1 ≠ moveId) :
    firstOtherWorker pool moveId ∈ pool.map Prod.fst := by
  cases pool with
  | nil => exact absurd rfl hne
  | cons e rest =>
    have hpred : (e.1 != moveId) = true :=
      bne_iff_ne.mpr (hnotin e (List.mem_cons_self e rest))
    simp [firstOtherWorker, List.find?, hpred]

theorem nodup_keys_eq {β : Type} {l : List (String × β)}
    (hnd : (l.map Prod.fst).Nodup) :
    ∀ e ∈ l, ∀ f ∈ l, e.1 = f.1 → e = f := by
  induction l with
  | nil => simp
  | cons a l ih =>
    simp only [List.map_cons, List.nodup_cons] at hnd
    intro e he f hf heq
    rcases List.mem_cons.mp he with he1 | he2 <;>
      rcases List.mem_cons.mp hf with hf1 | hf2
    · rw [he1, hf1]
    · exfalso
      apply hnd.1
      rw [he1] at heq
      rw [heq]
      exact List.mem_map_of_mem Prod.fst hf2
    · exfalso
      apply hnd.1
      rw [hf1] at heq
      rw [← heq]
      exact List.mem_map_of_mem Prod.fst he2
    · exact ih hnd.2 e he2 f hf2 heq

theorem foldMove_map_fst (live : List (String × WorkerInfo)) :
    ∀ (fs : List (String × WorkerInfo)) (pm : List (Nat × String)),
      ((fs.foldl
          (fun pm f => movePartitions live (joinHostPort f.2.host f.2.port) pm)
          pm).map Prod.fst) = pm.map Prod.fst := by
  intro fs
  induction fs with
  | nil => intro pm; rfl
  | cons f fs ih =>
    intro pm
    rw [List.foldl_cons, ih, movePartitions_map_fst]

theorem foldMove_keeps (live : List (String × WorkerInfo)) :
    ∀ (fs : List (String × WorkerInfo)) (pm : List (Nat × String))
      (pr : Nat × String), pr ∈ pm →
      (∀ f ∈ fs, pr.2 ≠ joinHostPort f.2.host f.2.port) →
      pr ∈ fs.foldl
        (fun pm f => movePartitions live (joinHostPort f.2.host f.2.port) pm)
        pm := by
  intro fs
  induction fs with
  | nil =>
    intro pm pr h _
    exact h
  | cons f fs ih =>
    intro pm pr h hne
    rw [List.foldl_cons]
    exact ih _ pr
      (movePartitions_keeps live _ pm pr h (hne f (List.mem_cons_self f fs)))
      (fun g hg => hne g (List.mem_cons_of_mem f hg))

theorem foldMove_owners_live (live : List (String × WorkerInfo))
    (hne : live ≠ []) :
    ∀ (fs : List (String × WorkerInfo)) (pm : List (Nat × String)),
      (∀ f ∈ fs, ∀ e ∈ live, e.1 ≠ joinHostPort f.2.host f.2.port) →
      (∀ pr ∈ pm, pr.2 ∈ live.map Prod.fst ∨
        ∃ f ∈ fs, pr.2 = joinHostPort f.2.host f.2.port) →
      ∀ pr ∈ fs.foldl
          (fun pm f => movePartitions live (joinHostPort f.2.host f.2.port) pm)
          pm,
        pr.2 ∈ live.map Prod.fst := by
  intro fs
  induction fs with
  | nil =>
    intro pm _ hinv pr hpr
    rcases hinv pr hpr with h | ⟨f, hf, _⟩
    · exact h
    · exact absurd hf (List.not_mem_nil f)
  | cons f fs ih =>
    intro pm hdisj hinv pr hpr
    rw [List.foldl_cons] at hpr
    refine ih _ (fun g hg => hdisj g (List.mem_cons_of_mem f hg)) ?_ pr hpr
    intro pr2 hpr2
    rcases movePartitions_owners live _ pm pr2 hpr2 with
      ⟨pr0, hpr0, heq, hneq⟩ | hnew
    · rcases hinv pr0 hpr0 with hlive | ⟨g, hg, hkey⟩
      · left
        rw [heq]
        exact hlive
      · rcases List.mem_cons.mp hg with hgf | hgfs
        · exact absurd (hgf ▸ hkey) (heq ▸ hneq)
        · right
          exact ⟨g, hgfs, heq ▸ hkey⟩
    · left
      rw [hnew]
      exact firstOtherWorker_mem live _ hne
        (hdisj f (List.mem_cons_self f fs))

/-- C8.  Purging with at least one live worker: the surviving pool is
exactly the non-failed records, every partition ends up owned by a
surviving worker, the partition ids are untouched, and every partition
owned by a worker whose record had not failed keeps its assignment.
Purging with no live worker left returns the "no workers left" error and
moves nothing.  The pool is a Go map (duplicate-free keys) whose keys equal
the hostPort rebuilt from each record, and every partition owner is a pool
worker, as established at registration and assignment time. -/
theorem purgeFailedWorkers_spec (pool : List (String × WorkerInfo))
    (pmap : List (Nat × String))
    (hnd : (pool.map Prod.fst).Nodup)
    (hkeys : ∀ e ∈ pool, e.1 = joinHostPort e.2.host e.2.port)
    (howners : ∀ pr ∈ pmap, pr.2 ∈ pool.map Prod.fst) :
    (pool.filter (fun e => !e.2.failed) ≠ [] →
      ((purgeFailedWorkers pool pmap).1
          = Except.ok (pool.filter (fun e => !e.2.failed))
        ∧ (∀ pr ∈ (purgeFailedWorkers pool pmap).2,
            pr.2 ∈ (pool.filter (fun e => !e.2.failed)).map Prod.fst)
        ∧ (purgeFailedWorkers pool pmap).2.map Prod.fst = pmap.map Prod.fst
        ∧ (∀ pr ∈ pmap,
            (∀ e ∈ pool, e.1 = pr.2 → e.2.failed = false) →
            pr ∈ (purgeFailedWorkers pool pmap).2)))
  ∧ (pool.filter (fun e => !e.2.failed) = [] →
      purgeFailedWorkers pool pmap
        = (Except.error "no workers left", pmap)) := by
  have hlive_mem : ∀ e, e ∈ pool.filter (fun e => !e.2.failed) ↔
      e ∈ pool ∧ e.2.failed = false := by
    intro e
    rw [List.mem_filter]
    simp
  have hfail_mem : ∀ e, e ∈ pool.filter (fun e => e.2.failed) ↔
      e ∈ pool ∧ e.2.failed = true := by
    intro e
    rw [List.mem_filter]
  constructor
  · intro hne
    have hresult : purgeFailedWorkers pool pmap =
        (Except.ok (pool.filter (fun e => !e.2.failed)),
         (pool.filter (fun e => e.2.failed)).foldl
           (fun pm f =>
             movePartitions (pool.filter (fun e => !e.2.failed))
               (joinHostPort f.2.host f.2.port) pm)
           pmap) := by
      unfold purgeFailedWorkers
      rw [if_neg hne]
    have hdisj : ∀ f ∈ pool.filter (fun e => e.2.failed),
        ∀ e ∈ pool.filter (fun e => !e.2.failed),
        e.1 ≠ joinHostPort f.2.host f.2.port := by
      intro f hf e he heq
      rcases (hfail_mem f).mp hf with ⟨hfpool, hffail⟩
      rcases (hlive_mem e).mp he with ⟨hepool, helive⟩
      have hkey : e.1 = f.1 := by
        rw [heq, ← hkeys f hfpool]
      have : e = f := nodup_keys_eq hnd e hepool f hfpool hkey
      rw [this] at helive
      rw [helive] at hffail
      exact Bool.false_ne_true hffail
    rw [hresult]
    refine ⟨rfl, ?_, ?_, ?_⟩
    · intro pr hpr
      refine foldMove_owners_live _ hne _ pmap hdisj ?_ pr hpr
      intro pr0 hpr0
      rcases List.mem_map.mp (howners pr0 hpr0) with ⟨e, hepool, hekey⟩
      by_cases hfl : e.2.failed
      · right
        refine ⟨e, (hfail_mem e).mpr ⟨hepool, hfl⟩, ?_⟩
        rw [← hekey, hkeys e hepool]
      · left
        rw [← hekey]
        exact List.mem_map_of_mem Prod.fst
          ((hlive_mem e).mpr ⟨hepool, by simpa using hfl⟩)
    · exact foldMove_map_fst _ _ pmap
    · intro pr hpr hgood
      refine foldMove_keeps _ _ pmap pr hpr ?_
      intro f hf heq
      rcases (hfail_mem f).mp hf with ⟨hfpool, hffail⟩
      have : f.2.failed = false := by
        apply hgood f hfpool
        rw [hkeys f hfpool, ← heq]
      rw [this] at hffail
      exact Bool.false_ne_true hffail
  · intro hempty
    unfold purgeFailedWorkers
    rw [if_pos hempty]

/-- C8 witness: a two-worker pool with one failed worker; the purge succeeds
and keeps exactly the live worker. -/
theorem purgeFailedWorkers_spec_witness :
    (purgeFailedWorkers
        [("h:1", { host := "h", port := "1", failed := true, errorMsg := "",
                   lastHeartbeat := 0 }),
         ("h:2", { host := "h", port := "2", failed := false, errorMsg := "",
                   lastHeartbeat := 0 })]
        [(0, "h:1"), (1, "h:2")]).1
      = Except.ok
          [("h:2", { host := "h", port := "2", failed := false,
                     errorMsg := "", lastHeartbeat := 0 })] :=
  ((purgeFailedWorkers_spec
      [("h:1", { host := "h", port := "1", failed := true, errorMsg := "",
                 lastHeartbeat := 0 }),
       ("h:2", { host := "h", port := "2", failed := false, errorMsg := "",
                 lastHeartbeat := 0 })]
      [(0, "h:1"), (1, "h:2")]
      (by decide) (by decide) (by decide)).1 (by decide)).1

/-! ### Phase execution (Master.executePhase, Master.commitPhaseInfo) -/

/-- jobInfo of the current master (startTime and endTime, pure wall-clock
bookkeeping, are omitted). -/
structure JobInfo where
  phaseInfo : PhaseInfo
  canRegister : Bool
  lastCheckpoint : Nat
  totalSentMsgs : Nat
  superstep : Nat
deriving DecidableEq

/-- Master.commitPhaseInfo (listener.go, current master): copies the three
phase counters into jobInfo.phaseInfo and then adds the just-committed
sentMsgs into totalSentMsgs. -/
def commitPhaseInfo (job : JobInfo) (info : PhaseInfo) : JobInfo :=
  { job with
      phaseInfo := { job.phaseInfo with
        activeVerts := info.activeVerts,
        numVerts := info.numVerts,
        sentMsgs := info.sentMsgs },
      totalSentMsgs := job.totalSentMsgs + info.sentMsgs }

/-- The master state touched by executePhase. -/
structure MasterState where
  phase : Int
  jobInfo : JobInfo
  workerPool : List (String × WorkerInfo)
  partitionMap : List (Nat × String)
deriving DecidableEq

/-- How one call of Master.executePhase ends: early return of the purge
error, waiting forever on an unclosed barrier, the panic on phase errors
(the Go code runs `panic("phase errors")`, its `return phaseErrors` being
unreachable), or the normal committed return of nil. -/
inductive ExecutePhaseOutcome where
  | purgeFailed (err : String)
  | hung
  | panicked (phaseErrors : List String)
  | committed
deriving DecidableEq

/-- Master.executePhase (listener.go, current master): purge failed workers
(returning the error on failure), set the phase, fan the PhaseExec out (an
RPC effect whose worker responses are the barrier `entries`), run the
barrier over a fresh phaseInfo, then either panic when the phase lost
workers or collected errors, or commit the phase info.  The lost workers
are turned into errors first (errors.New(hostPort), modelled by the
hostPort string), followed by the collected worker errors. -/
def executePhase (m : MasterState) (phaseId : Int)
    (entries : List BarrierEntry) : ExecutePhaseOutcome × MasterState :=
  match purgeFailedWorkers m.workerPool m.partitionMap with
  | (Except.error err, pm) =>
    -- the purge error means the deletions emptied the pool before the check
    (ExecutePhaseOutcome.purgeFailed err,
     { m with workerPool := m.workerPool.filter (fun e => !e.2.failed),
              partitionMap := pm })
  | (Except.ok pool2, pm) =>
    let m2 := { m with workerPool := pool2, partitionMap := pm,
                       phase := phaseId }
    match barrier (pool2.map Prod.fst) entries newPhaseInfo with
    | BarrierResult.blocked _ _ => (ExecutePhaseOutcome.hung, m2)
    | BarrierResult.closed info =>
      let phaseErrors := info.lostWorkers ++ info.errors
      if phaseErrors ≠ [] then
        (ExecutePhaseOutcome.panicked phaseErrors, m2)
      else
        (ExecutePhaseOutcome.committed,
         { m2 with jobInfo := commitPhaseInfo m2.jobInfo info })

/-- A two-worker master state about to execute a phase. -/
def masterTwoWorkers : MasterState :=
  { phase := 0,
    jobInfo := { phaseInfo := newPhaseInfo, canRegister := false,
                 lastCheckpoint := 0, totalSentMsgs := 0, superstep := 0 },
    workerPool := [("w1:1", newWorkerInfo "w1" "1"),
                   ("w2:2", newWorkerInfo "w2" "2")],
    partitionMap := [(0, "w1:1"), (1, "w2:2")] }

/-- C3.  When the barrier records a lost worker (here w2:2, removed after
failing mid-phase while w1:1 reports normally), executePhase does not
return the phase errors as the spec states: it panics with
"phase errors" (the return after the panic is unreachable), though it
indeed leaves JobInfo uncommitted.  On the error-free run over the same
state it commits the accumulated counters and returns no errors. -/
theorem executePhase_panics_instead_of_returning :
    (executePhase masterTwoWorkers 6
        [BarrierEntry.remove "w2:2" none,
         BarrierEntry.summary
           { WorkerId := "w1:1", JobId := "j", PhaseId := 6,
             ActiveVerts := 2, NumVerts := 3, SentMsgs := 1,
             Errors := [] }]).1
      = ExecutePhaseOutcome.panicked ["w2:2"]
  ∧ (executePhase masterTwoWorkers 6
        [BarrierEntry.remove "w2:2" none,
         BarrierEntry.summary
           { WorkerId := "w1:1", JobId := "j", PhaseId := 6,
             ActiveVerts := 2, NumVerts := 3, SentMsgs := 1,
             Errors := [] }]).2.jobInfo
      = masterTwoWorkers.jobInfo
  ∧ (executePhase masterTwoWorkers 6
        [BarrierEntry.summary
           { WorkerId := "w1:1", JobId := "j", PhaseId := 6,
             ActiveVerts := 2, NumVerts := 3, SentMsgs := 1,
             Errors := [] },
         BarrierEntry.summary
           { WorkerId := "w2:2", JobId := "j", PhaseId := 6,
             ActiveVerts := 4, NumVerts := 5, SentMsgs := 2,
             Errors := [] }]).1
      = ExecutePhaseOutcome.committed
  ∧ (executePhase masterTwoWorkers 6
        [BarrierEntry.summary
           { WorkerId := "w1:1", JobId := "j", PhaseId := 6,
             ActiveVerts := 2, NumVerts := 3, SentMsgs := 1,
             Errors := [] },
         BarrierEntry.summary
           { WorkerId := "w2:2", JobId := "j", PhaseId := 6,
             ActiveVerts := 4, NumVerts := 5, SentMsgs := 2,
             Errors := [] }]).2.jobInfo.phaseInfo.activeVerts = 6 := by
  refine ⟨?_, ?_, ?_, ?_⟩ <;> rfl

/-! ### The compute loop (Master.compute, listener.go, current master) -/

/-- The committed phase counters read by the compute loop's guard. -/
structure PhaseCounters where
  activeVerts : Nat
  numVerts : Nat
  sentMsgs : Nat
deriving DecidableEq

/-- The two phases executed by each compute-loop iteration.  Modelled from
the spec: the numeric values of the PHASE_STEP_PREPARE and PHASE_SUPERSTEP
constants are not among the given sources, only their names, so the phases
are an enumeration. -/
inductive Phase where
  | STEP_PREPARE
  | SUPERSTEP
deriving DecidableEq

/-- The state the compute loop reads and writes: the committed phase
counters, the superstep counter, jobInfo.lastCheckpoint, the supersteps at
which Persister.PersistMaster was invoked, and the trace of executed
phases. -/
structure ComputeState where
  info : PhaseCounters
  superstep : Nat
  lastCheckpoint : Nat
  persistCalls : List Nat
  trace : List (Nat × Phase)
deriving DecidableEq

/-- How Master.compute returned: normally (nil), or propagating a
PersistMaster error. -/
inductive ExitKind where
  | ok
  | persistError
deriving DecidableEq

/-- Master.compute (listener.go, current master).  The loop guard rereads
the committed phaseInfo; `effect s` is the committed phaseInfo after the
two phases of superstep `s` (executePhase's own error returns are ignored
by compute, so only the committed counters matter to the loop);
`persistOk s` tells whether PersistMaster succeeds at `s`.  The body first
breaks when MaxSteps is positive and the superstep counter has reached it,
then runs PHASE_STEP_PREPARE and PHASE_SUPERSTEP, then, if
checkpointFn(superstep), calls PersistMaster and returns its error on
failure.  `none` means the fuel ran out with the loop still running. -/
def compute (effect : Nat → PhaseCounters) (checkpointFn : Nat → Bool)
    (maxSteps : Nat) (persistOk : Nat → Bool) :
    Nat → ComputeState → ComputeState × Option ExitKind
  | 0, st => (st, none)
  | fuel + 1, st =>
    if 0 < st.info.activeVerts ∨ 0 < st.info.sentMsgs then
      if 0 < maxSteps ∧ ¬st.superstep < maxSteps then
        (st, some ExitKind.ok)
      else
        let s := st.superstep
        let st1 : ComputeState :=
          { st with
              info := effect s,
              trace := st.trace
                ++ [(s, Phase.STEP_PREPARE), (s, Phase.SUPERSTEP)] }
        if checkpointFn s then
          let st2 : ComputeState :=
            { st1 with persistCalls := st1.persistCalls ++ [s] }
          if persistOk s then
            compute effect checkpointFn maxSteps persistOk fuel
              { st2 with superstep := s + 1 }
          else (st2, some ExitKind.persistError)
        else
          compute effect checkpointFn maxSteps persistOk fuel
            { st1 with superstep := s + 1 }
    else (st, some ExitKind.ok)

/-- The condition under which the compute loop of the current master stops
iterating: convergence, or a positive MaxSteps that the superstep counter
has reached. -/
def loopExit (maxSteps : Nat) (st : ComputeState) : Prop :=
  (st.info.activeVerts = 0 ∧ st.info.sentMsgs = 0)
    ∨ (0 < maxSteps ∧ maxSteps ≤ st.superstep)

instance (maxSteps : Nat) (st : ComputeState) :
    Decidable (loopExit maxSteps st) := by
  unfold loopExit
  infer_instance

theorem compute_ok_loopExit (effect : Nat → PhaseCounters)
    (checkpointFn : Nat → Bool) (maxSteps : Nat) (persistOk : Nat → Bool) :
    ∀ (fuel : Nat) (st : ComputeState),
      (compute effect checkpointFn maxSteps persistOk fuel st).2
          = some ExitKind.ok →
      loopExit maxSteps
        (compute effect checkpointFn maxSteps persistOk fuel st).1 := by
  intro fuel
  induction fuel with
  | zero =>
    intro st h
    simp [compute] at h
  | succ fuel ih =>
    intro st h
    by_cases hguard : 0 < st.info.activeVerts ∨ 0 < st.info.sentMsgs
    · by_cases hbreak : 0 < maxSteps ∧ maxSteps ≤ st.superstep
      · have heq : compute effect checkpointFn maxSteps persistOk
            (fuel + 1) st = (st, some ExitKind.ok) := by
          simp [compute, hguard, hbreak]
        rw [heq]
        have hstop : loopExit maxSteps st := Or.inr hbreak
        exact hstop
      · by_cases hcp : checkpointFn st.superstep = true
        · by_cases hpok : persistOk st.superstep = true
          · have heq : compute effect checkpointFn maxSteps persistOk
                (fuel + 1) st
              = compute effect checkpointFn maxSteps persistOk fuel
                  { info := effect st.superstep,
                    superstep := st.superstep + 1,
                    lastCheckpoint := st.lastCheckpoint,
                    persistCalls := st.persistCalls ++ [st.superstep],
                    trace := st.trace
                      ++ [(st.superstep, Phase.STEP_PREPARE),
                          (st.superstep, Phase.SUPERSTEP)] } := by
              simp [compute, hguard, hbreak, hcp, hpok]
            rw [heq] at h ⊢
            exact ih _ h
          · have heq : (compute effect checkpointFn maxSteps persistOk
                (fuel + 1) st).2 = some ExitKind.persistError := by
              simp [compute, hguard, hbreak, hcp, hpok]
            rw [heq] at h
            exact absurd h (by simp)
        · have heq : compute effect checkpointFn maxSteps persistOk
              (fuel + 1) st
            = compute effect checkpointFn maxSteps persistOk fuel
                { info := effect st.superstep,
                  superstep := st.superstep + 1,
                  lastCheckpoint := st.lastCheckpoint,
                  persistCalls := st.persistCalls,
                  trace := st.trace
                    ++ [(st.superstep, Phase.STEP_PREPARE),
                        (st.superstep, Phase.SUPERSTEP)] } := by
            simp [compute, hguard, hbreak, hcp]
          rw [heq] at h ⊢
          exact ih _ h
    · have heq : compute effect checkpointFn maxSteps persistOk
          (fuel + 1) st = (st, some ExitKind.ok) := by
        simp [compute, hguard]
      rw [heq]
      have hconv : loopExit maxSteps st := Or.inl ⟨by omega, by omega⟩
      exact hconv

theorem compute_trace_extends (effect : Nat → PhaseCounters)
    (checkpointFn : Nat → Bool) (maxSteps : Nat) (persistOk : Nat → Bool) :
    ∀ (fuel : Nat) (st : ComputeState),
      ∃ tl, (compute effect checkpointFn maxSteps persistOk fuel st).1.trace
        = st.trace ++ tl := by
  intro fuel
  induction fuel with
  | zero =>
    intro st
    exact ⟨[], by simp [compute]⟩
  | succ fuel ih =>
    intro st
    by_cases hguard : 0 < st.info.activeVerts ∨ 0 < st.info.sentMsgs
    · by_cases hbreak : 0 < maxSteps ∧ maxSteps ≤ st.superstep
      · exact ⟨[], by simp [compute, hguard, hbreak]⟩
      · by_cases hcp : checkpointFn st.superstep = true
        · by_cases hpok : persistOk st.superstep = true
          · have hnext := ih
              { info := effect st.superstep,
                superstep := st.superstep + 1,
                lastCheckpoint := st.lastCheckpoint,
                persistCalls := st.persistCalls ++ [st.superstep],
                trace := st.trace
                  ++ [(st.superstep, Phase.STEP_PREPARE),
                      (st.superstep, Phase.SUPERSTEP)] }
            rcases hnext with ⟨tl, htl⟩
            refine ⟨[(st.superstep, Phase.STEP_PREPARE),
                     (st.superstep, Phase.SUPERSTEP)] ++ tl, ?_⟩
            have heq : compute effect checkpointFn maxSteps persistOk
                (fuel + 1) st
              = compute effect checkpointFn maxSteps persistOk fuel
                  { info := effect st.superstep,
                    superstep := st.superstep + 1,
                    lastCheckpoint := st.lastCheckpoint,
                    persistCalls := st.persistCalls ++ [st.superstep],
                    trace := st.trace
                      ++ [(st.superstep, Phase.STEP_PREPARE),
                          (st.superstep, Phase.SUPERSTEP)] } := by
              simp [compute, hguard, hbreak, hcp, hpok]
            rw [heq, htl]
            simp
          · refine ⟨[(st.superstep, Phase.STEP_PREPARE),
                     (st.superstep, Phase.SUPERSTEP)], ?_⟩
            simp [compute, hguard, hbreak, hcp, hpok]
        · have hnext := ih
            { info := effect st.superstep,
              superstep := st.superstep + 1,
              lastCheckpoint := st.lastCheckpoint,
              persistCalls := st.persistCalls,
              trace := st.trace
                ++ [(st.superstep, Phase.STEP_PREPARE),
                    (st.superstep, Phase.SUPERSTEP)] }
          rcases hnext with ⟨tl, htl⟩
          refine ⟨[(st.superstep, Phase.STEP_PREPARE),
                   (st.superstep, Phase.SUPERSTEP)] ++ tl, ?_⟩
          have heq : compute effect checkpointFn maxSteps persistOk
              (fuel + 1) st
            = compute effect checkpointFn maxSteps persistOk fuel
                { info := effect st.superstep,
                  superstep := st.superstep + 1,
                  lastCheckpoint := st.lastCheckpoint,
                  persistCalls := st.persistCalls,
                  trace := st.trace
                    ++ [(st.superstep, Phase.STEP_PREPARE),
                        (st.superstep, Phase.SUPERSTEP)] } := by
            simp [compute, hguard, hbreak, hcp]
          rw [heq, htl]
          simp
    · exact ⟨[], by simp [compute, hguard]⟩

/-- C1 amended.  The compute loop of the current master (i) returns
normally only in a state satisfying loopExit, i.e. with the committed
counters both zero or with a positive MaxSteps reached by the superstep
counter; (ii) returns immediately, normally, from any state satisfying
loopExit; and (iii) from any state not satisfying loopExit executes
PHASE_STEP_PREPARE followed by PHASE_SUPERSTEP for the current superstep.
A failing PersistMaster additionally ends the loop with its error.  This
amends the claim by the guard `MaxSteps > 0`: with MaxSteps = 0 the
superstep cutoff is disabled rather than immediate. -/
theorem compute_exit_characterization (effect : Nat → PhaseCounters)
    (checkpointFn : Nat → Bool) (maxSteps : Nat) (persistOk : Nat → Bool)
    (fuel : Nat) (st : ComputeState) :
    ((compute effect checkpointFn maxSteps persistOk fuel st).2
        = some ExitKind.ok →
      loopExit maxSteps
        (compute effect checkpointFn maxSteps persistOk fuel st).1)
  ∧ (loopExit maxSteps st →
      compute effect checkpointFn maxSteps persistOk (fuel + 1) st
        = (st, some ExitKind.ok))
  ∧ (¬loopExit maxSteps st →
      ∃ tl, (compute effect checkpointFn maxSteps persistOk
          (fuel + 1) st).1.trace
        = st.trace ++ (st.superstep, Phase.STEP_PREPARE)
            :: (st.superstep, Phase.SUPERSTEP) :: tl) := by
  refine ⟨compute_ok_loopExit effect checkpointFn maxSteps persistOk fuel st,
    ?_, ?_⟩
  · intro hexit
    rcases hexit with ⟨hav, hsm⟩ | ⟨hms, hsup⟩
    · have hguard : ¬(0 < st.info.activeVerts ∨ 0 < st.info.sentMsgs) := by
        omega
      simp [compute, hguard]
    · by_cases hguard : 0 < st.info.activeVerts ∨ 0 < st.info.sentMsgs
      · have hbreak : 0 < maxSteps ∧ maxSteps ≤ st.superstep := ⟨hms, hsup⟩
        simp [compute, hguard, hbreak]
      · simp [compute, hguard]
  · intro hnot
    have hguard : 0 < st.info.activeVerts ∨ 0 < st.info.sentMsgs := by
      unfold loopExit at hnot
      omega
    have hbreak : ¬(0 < maxSteps ∧ maxSteps ≤ st.superstep) := by
      unfold loopExit at hnot
      omega
    by_cases hcp : checkpointFn st.superstep = true
    · by_cases hpok : persistOk st.superstep = true
      · have heq : compute effect checkpointFn maxSteps persistOk
            (fuel + 1) st
          = compute effect checkpointFn maxSteps persistOk fuel
              { info := effect st.superstep,
                superstep := st.superstep + 1,
                lastCheckpoint := st.lastCheckpoint,
                persistCalls := st.persistCalls ++ [st.superstep],
                trace := st.trace
                  ++ [(st.superstep, Phase.STEP_PREPARE),
                      (st.superstep, Phase.SUPERSTEP)] } := by
          simp [compute, hguard, hbreak, hcp, hpok]
        have hnext := compute_trace_extends effect checkpointFn maxSteps
          persistOk fuel
          { info := effect st.superstep,
            superstep := st.superstep + 1,
            lastCheckpoint := st.lastCheckpoint,
            persistCalls := st.persistCalls ++ [st.superstep],
            trace := st.trace
              ++ [(st.superstep, Phase.STEP_PREPARE),
                  (st.superstep, Phase.SUPERSTEP)] }
        rcases hnext with ⟨tl, htl⟩
        refine ⟨tl, ?_⟩
        rw [heq, htl]
        simp
      · refine ⟨[], ?_⟩
        simp [compute, hguard, hbreak, hcp, hpok]
    · have heq : compute effect checkpointFn maxSteps persistOk
          (fuel + 1) st
        = compute effect checkpointFn maxSteps persistOk fuel
            { info := effect st.superstep,
              superstep := st.superstep + 1,
              lastCheckpoint := st.lastCheckpoint,
              persistCalls := st.persistCalls,
              trace := st.trace
                ++ [(st.superstep, Phase.STEP_PREPARE),
                    (st.superstep, Phase.SUPERSTEP)] } := by
        simp [compute, hguard, hbreak, hcp]
      have hnext := compute_trace_extends effect checkpointFn maxSteps
        persistOk fuel
        { info := effect st.superstep,
          superstep := st.superstep + 1,
          lastCheckpoint := st.lastCheckpoint,
          persistCalls := st.persistCalls,
          trace := st.trace
            ++ [(st.superstep, Phase.STEP_PREPARE),
                (st.superstep, Phase.SUPERSTEP)] }
      rcases hnext with ⟨tl, htl⟩
      refine ⟨tl, ?_⟩
      rw [heq, htl]
      simp

/-- A converged compute-loop state: the committed counters are zero. -/
def haltedState : ComputeState :=
  { info := { activeVerts := 0, numVerts := 4, sentMsgs := 0 },
    superstep := 3, lastCheckpoint := 0, persistCalls := [], trace := [] }

/-- C1 amended claim witness: a converged state makes the loop return
normally at once. -/
theorem compute_exit_characterization_witness :
    compute (fun _ => { activeVerts := 0, numVerts := 4, sentMsgs := 0 })
        (fun _ => false) 5 (fun _ => true) 1 haltedState
      = (haltedState, some ExitKind.ok) :=
  (compute_exit_characterization
      (fun _ => { activeVerts := 0, numVerts := 4, sentMsgs := 0 })
      (fun _ => false) 5 (fun _ => true) 0 haltedState).2.1
    (by decide)

/-- A compute-loop state that never converges. -/
def busyState : ComputeState :=
  { info := { activeVerts := 1, numVerts := 1, sentMsgs := 1 },
    superstep := 0, lastCheckpoint := 0, persistCalls := [], trace := [] }

/-- C1 counterexample.  With MaxSteps = 0 the claim's exit condition
"superstep has reached MaxSteps" holds from the very first check
(0 is at least 0), so the claim predicts the loop exits without executing
any phase; the code instead disables the cutoff for MaxSteps = 0: within
fuel 3 the loop executes PHASE_STEP_PREPARE at superstep 0 (and keeps
running, never having exited). -/
theorem compute_maxSteps_zero_keeps_running :
    ((compute (fun _ => { activeVerts := 1, numVerts := 1, sentMsgs := 1 })
        (fun _ => false) 0 (fun _ => true) 3 busyState).2 = none)
  ∧ busyState.superstep ≥ 0
  ∧ ((busyState.superstep, Phase.STEP_PREPARE) ∈
      (compute (fun _ => { activeVerts := 1, numVerts := 1, sentMsgs := 1 })
        (fun _ => false) 0 (fun _ => true) 3 busyState).1.trace) := by
  refine ⟨?_, ?_, ?_⟩ <;> decide

theorem compute_persistCalls_extends (effect : Nat → PhaseCounters)
    (checkpointFn : Nat → Bool) (maxSteps : Nat) (persistOk : Nat → Bool) :
    ∀ (fuel : Nat) (st : ComputeState) (x : Nat), x ∈ st.persistCalls →
      x ∈ (compute effect checkpointFn maxSteps persistOk
        fuel st).1.persistCalls := by
  intro fuel
  induction fuel with
  | zero =>
    intro st x hx
    simpa [compute] using hx
  | succ fuel ih =>
    intro st x hx
    by_cases hguard : 0 < st.info.activeVerts ∨ 0 < st.info.sentMsgs
    · by_cases hbreak : 0 < maxSteps ∧ maxSteps ≤ st.superstep
      · have heq : compute effect checkpointFn maxSteps persistOk
            (fuel + 1) st = (st, some ExitKind.ok) := by
          simp [compute, hguard, hbreak]
        rw [heq]
        exact hx
      · by_cases hcp : checkpointFn st.superstep = true
        · by_cases hpok : persistOk st.superstep = true
          · have heq : compute effect checkpointFn maxSteps persistOk
                (fuel + 1) st
              = compute effect checkpointFn maxSteps persistOk fuel
                  { info := effect st.superstep,
                    superstep := st.superstep + 1,
                    lastCheckpoint := st.lastCheckpoint,
                    persistCalls := st.persistCalls ++ [st.superstep],
                    trace := st.trace
                      ++ [(st.superstep, Phase.STEP_PREPARE),
                          (st.superstep, Phase.SUPERSTEP)] } := by
              simp [compute, hguard, hbreak, hcp, hpok]
            rw [heq]
            exact ih _ x (List.mem_append_left _ hx)
          · have heq : (compute effect checkpointFn maxSteps persistOk
                (fuel + 1) st).1.persistCalls
                = st.persistCalls ++ [st.superstep] := by
              simp [compute, hguard, hbreak, hcp, hpok]
            rw [heq]
            exact List.mem_append_left _ hx
        · have heq : compute effect checkpointFn maxSteps persistOk
              (fuel + 1) st
            = compute effect checkpointFn maxSteps persistOk fuel
                { info := effect st.superstep,
                  superstep := st.superstep + 1,
                  lastCheckpoint := st.lastCheckpoint,
                  persistCalls := st.persistCalls,
                  trace := st.trace
                    ++ [(st.superstep, Phase.STEP_PREPARE),
                        (st.superstep, Phase.SUPERSTEP)] } := by
            simp [compute, hguard, hbreak, hcp]
          rw [heq]
          exact ih _ x hx
    · have heq : compute effect checkpointFn maxSteps persistOk
          (fuel + 1) st = (st, some ExitKind.ok) := by
        simp [compute, hguard]
      rw [heq]
      exact hx

/-- C7 amended.  In the current master, (i) the compute loop never touches
jobInfo.lastCheckpoint, so it stays whatever it was when the loop started;
(ii) PersistMaster is invoked for every superstep whose SUPERSTEP phase the
loop executed and for which checkpointFn holds, after that phase; and
(iii) PersistMaster is only invoked at supersteps for which checkpointFn
holds.  This amends the claim by dropping "sets jobInfo.lastCheckpoint to
s": no code of the current master ever assigns lastCheckpoint (only the
first master variant assigns it, inside its executePhase, and that variant
has no persister at all). -/
theorem compute_persist_no_lastCheckpoint (effect : Nat → PhaseCounters)
    (checkpointFn : Nat → Bool) (maxSteps : Nat) (persistOk : Nat → Bool) :
    ∀ (fuel : Nat) (st : ComputeState),
      ((compute effect checkpointFn maxSteps persistOk
          fuel st).1.lastCheckpoint = st.lastCheckpoint)
      ∧ (∀ s : Nat,
          (s, Phase.SUPERSTEP) ∈ (compute effect checkpointFn maxSteps
            persistOk fuel st).1.trace →
          (s, Phase.SUPERSTEP) ∉ st.trace → checkpointFn s = true →
          s ∈ (compute effect checkpointFn maxSteps persistOk
            fuel st).1.persistCalls)
      ∧ (∀ s : Nat,
          s ∈ (compute effect checkpointFn maxSteps persistOk
            fuel st).1.persistCalls →
          s ∈ st.persistCalls ∨ checkpointFn s = true) := by
  intro fuel
  induction fuel with
  | zero =>
    intro st
    refine ⟨by simp [compute], ?_, ?_⟩
    · intro s hmem hnot _
      simp only [compute] at hmem
      exact absurd hmem hnot
    · intro s hmem
      simp only [compute] at hmem
      exact Or.inl hmem
  | succ fuel ih =>
    intro st
    by_cases hguard : 0 < st.info.activeVerts ∨ 0 < st.info.sentMsgs
    · by_cases hbreak : 0 < maxSteps ∧ maxSteps ≤ st.superstep
      · have heq : compute effect checkpointFn maxSteps persistOk
            (fuel + 1) st = (st, some ExitKind.ok) := by
          simp [compute, hguard, hbreak]
        rw [heq]
        refine ⟨rfl, ?_, fun s hs => Or.inl hs⟩
        intro s hmem hnot _
        exact absurd hmem hnot
      · by_cases hcp : checkpointFn st.superstep = true
        · by_cases hpok : persistOk st.superstep = true
          · have heq : compute effect checkpointFn maxSteps persistOk
                (fuel + 1) st
              = compute effect checkpointFn maxSteps persistOk fuel
                  { info := effect st.superstep,
                    superstep := st.superstep + 1,
                    lastCheckpoint := st.lastCheckpoint,
                    persistCalls := st.persistCalls ++ [st.superstep],
                    trace := st.trace
                      ++ [(st.superstep, Phase.STEP_PREPARE),
                          (st.superstep, Phase.SUPERSTEP)] } := by
              simp [compute, hguard, hbreak, hcp, hpok]
            rw [heq]
            have ihst := ih
              { info := effect st.superstep,
                superstep := st.superstep + 1,
                lastCheckpoint := st.lastCheckpoint,
                persistCalls := st.persistCalls ++ [st.superstep],
                trace := st.trace
                  ++ [(st.superstep, Phase.STEP_PREPARE),
                      (st.superstep, Phase.SUPERSTEP)] }
            refine ⟨ihst.1, ?_, ?_⟩
            · intro s hmem hnot hcps
              by_cases hin : (s, Phase.SUPERSTEP) ∈ st.trace
                ++ [(st.superstep, Phase.STEP_PREPARE),
                    (st.superstep, Phase.SUPERSTEP)]
              · have hs0 : s = st.superstep := by
                  rcases List.mem_append.mp hin with hold | hnew
                  · exact absurd hold hnot
                  · rcases List.mem_cons.mp hnew with hpair | hnew2
                    · have hps : Phase.SUPERSTEP = Phase.STEP_PREPARE :=
                        congrArg Prod.snd hpair
                      exact absurd hps (by decide)
                    · rcases List.mem_cons.mp hnew2 with hpair | hnil
                      · exact congrArg Prod.fst hpair
                      · exact absurd hnil (List.not_mem_nil _)
                rw [hs0]
                exact compute_persistCalls_extends effect checkpointFn
                  maxSteps persistOk fuel _ st.superstep
                  (List.mem_append_right _ (List.mem_singleton.mpr rfl))
              · exact ihst.2.1 s hmem hin hcps
            · intro s hs
              rcases ihst.2.2 s hs with hmem | hcps
              · rcases List.mem_append.mp hmem with hold | hnew
                · exact Or.inl hold
                · have : s = st.superstep := List.mem_singleton.mp hnew
                  exact Or.inr (this ▸ hcp)
              · exact Or.inr hcps
          · have heq : compute effect checkpointFn maxSteps persistOk
                (fuel + 1) st
              = ({ info := effect st.superstep,
                   superstep := st.superstep,
                   lastCheckpoint := st.lastCheckpoint,
                   persistCalls := st.persistCalls ++ [st.superstep],
                   trace := st.trace
                     ++ [(st.superstep, Phase.STEP_PREPARE),
                         (st.superstep, Phase.SUPERSTEP)] },
                 some ExitKind.persistError) := by
              simp [compute, hguard, hbreak, hcp, hpok]
            rw [heq]
            refine ⟨rfl, ?_, ?_⟩
            · intro s hmem hnot _
              exact List.mem_append_right _ (List.mem_singleton.mpr (by
                rcases List.mem_append.mp hmem with hold | hnew
                · exact absurd hold hnot
                · rcases List.mem_cons.mp hnew with hpair | hnew2
                  · have hps : Phase.SUPERSTEP = Phase.STEP_PREPARE :=
                      congrArg Prod.snd hpair
                    exact absurd hps (by decide)
                  · rcases List.mem_cons.mp hnew2 with hpair | hnil
                    · exact congrArg Prod.fst hpair
                    · exact absurd hnil (List.not_mem_nil _)))
            · intro s hs
              rcases List.mem_append.mp hs with hold | hnew
              · exact Or.inl hold
              · have : s = st.superstep := List.mem_singleton.mp hnew
                exact Or.inr (this ▸ hcp)
        · have heq : compute effect checkpointFn maxSteps persistOk
              (fuel + 1) st
            = compute effect checkpointFn maxSteps persistOk fuel
                { info := effect st.superstep,
                  superstep := st.superstep + 1,
                  lastCheckpoint := st.lastCheckpoint,
                  persistCalls := st.persistCalls,
                  trace := st.trace
                    ++ [(st.superstep, Phase.STEP_PREPARE),
                        (st.superstep, Phase.SUPERSTEP)] } := by
            simp [compute, hguard, hbreak, hcp]
          rw [heq]
          have ihst := ih
            { info := effect st.superstep,
              superstep := st.superstep + 1,
              lastCheckpoint := st.lastCheckpoint,
              persistCalls := st.persistCalls,
              trace := st.trace
                ++ [(st.superstep, Phase.STEP_PREPARE),
                    (st.superstep, Phase.SUPERSTEP)] }
          refine ⟨ihst.1, ?_, ihst.2.2⟩
          intro s hmem hnot hcps
          by_cases hin : (s, Phase.SUPERSTEP) ∈ st.trace
            ++ [(st.superstep, Phase.STEP_PREPARE),
                (st.superstep, Phase.SUPERSTEP)]
          · have hs0 : s = st.superstep := by
              rcases List.mem_append.mp hin with hold | hnew
              · exact absurd hold hnot
              · rcases List.mem_cons.mp hnew with hpair | hnew2
                · have hps : Phase.SUPERSTEP = Phase.STEP_PREPARE :=
                    congrArg Prod.snd hpair
                  exact absurd hps (by decide)
                · rcases List.mem_cons.mp hnew2 with hpair | hnil
                  · exact congrArg Prod.fst hpair
                  · exact absurd hnil (List.not_mem_nil _)
            rw [hs0] at hcps
            rw [hcps] at hcp
            exact absurd rfl hcp
          · exact ihst.2.1 s hmem hin hcps
    · have heq : compute effect checkpointFn maxSteps persistOk
          (fuel + 1) st = (st, some ExitKind.ok) := by
        simp [compute, hguard]
      rw [heq]
      refine ⟨rfl, ?_, fun s hs => Or.inl hs⟩
      intro s hmem hnot _
      exact absurd hmem hnot

/-- C7 amended claim witness: one busy superstep with checkpointing on;
superstep 0 runs its SUPERSTEP phase and is persisted. -/
theorem compute_persist_no_lastCheckpoint_witness :
    0 ∈ (compute (fun _ => { activeVerts := 0, numVerts := 1, sentMsgs := 0 })
        (fun _ => true) 10 (fun _ => true) 2 busyState).1.persistCalls :=
  (compute_persist_no_lastCheckpoint
      (fun _ => { activeVerts := 0, numVerts := 1, sentMsgs := 0 })
      (fun _ => true) 10 (fun _ => true) 2 busyState).2.1 0
    (by decide) (by decide) (by decide)

/-- The committed counters of a run that is busy at superstep 0 and
converges after superstep 1. -/
def twoStepEffect : Nat → PhaseCounters :=
  fun s => if s = 0 then { activeVerts := 1, numVerts := 2, sentMsgs := 1 }
           else { activeVerts := 0, numVerts := 2, sentMsgs := 0 }

/-- C7 counterexample.  With checkpointFn constantly true, the loop runs
supersteps 0 and 1, calls PersistMaster at both, and exits normally; yet
jobInfo.lastCheckpoint still holds its initial value 0 instead of the 1
the claim requires after the checkpointed superstep 1: no assignment to
lastCheckpoint exists in the current master. -/
theorem compute_lastCheckpoint_never_set :
    ((compute twoStepEffect (fun _ => true) 10 (fun _ => true) 5
        busyState).2 = some ExitKind.ok)
  ∧ ((compute twoStepEffect (fun _ => true) 10 (fun _ => true) 5
        busyState).1.persistCalls = [0, 1])
  ∧ ((compute twoStepEffect (fun _ => true) 10 (fun _ => true) 5
        busyState).1.superstep = 2)
  ∧ ((compute twoStepEffect (fun _ => true) 10 (fun _ => true) 5
        busyState).1.lastCheckpoint = 0) := by
  refine ⟨?_, ?_, ?_, ?_⟩ <;> decide

end Waffle
